import Mathlib

/-!
Verification of the nightshift VM-lifecycle subsystem.

Shallow embedding of the core modules of the repository:
  * `src/nightshift/events.py`      — `EventBuffer` (per-run append-only log)
  * `src/nightshift/vm/network.py`  — TAP/index allocator
  * `src/nightshift/vm/manager.py`  — `FirecrackerVM` start/destroy
  * `src/nightshift/vm/pool.py`     — `VMPool` checkout/checkin/invalidate
  * `src/nightshift/task.py`        — `run_task` / `run_task_pooled`

Pure data manipulation is translated directly; external I/O (subprocess
exit codes, HTTP probe results, SSE frames, fresh temp-dir tokens) is
passed in as explicit oracle inputs, and side effects on the host OS are
modelled as explicit state records or as lists of emitted actions.
-/

namespace Nightshift

/-! ### events.py — EventBuffer

An event record is a `(event_type, payload)` pair; the payload dict is
opaque to the buffer logic and is modelled as a string. -/

structure EventRec where
  type : String
  payload : String
deriving DecidableEq, Repr

/-- The set `TERMINAL_EVENTS` from events.py. -/
def TERMINAL_EVENTS : List String :=
  ["nightshift.completed", "nightshift.error", "nightshift.interrupted"]

/-- State of one run's slot in the `EventBuffer`: the `_runs[run_id]`
list and whether `run_id ∈ _done` (set by `cleanup`, the mark-done
operation). -/
structure BufState where
  events : List EventRec
  done : Bool
deriving DecidableEq, Repr

/-- State of one consumer of `EventBuffer.stream(run_id, cursor=0)`:
its cursor, the records it has yielded so far, and — once the stream
terminated via the done check — a snapshot of the buffer contents at
the moment of termination. -/
structure StreamState where
  cursor : Nat
  yielded : List EventRec
  termSnapshot : Option (List EventRec)
deriving DecidableEq, Repr

/-- Interleaved operations on the buffer and one stream consumer.
`consume` is one scheduler step of the consumer: yield the next
buffered record if one is available (the inner `while cursor <
len(events)` loop body), otherwise check the done set and terminate
(the `if run_id in self._done: return`), otherwise wait on the
condition.  In asyncio there is no suspension point between the
length check and the done check, so this step granularity matches the
source. -/
inductive BufOp where
  | append (r : EventRec)
  | markDone
  | consume
deriving DecidableEq, Repr

/-- Embeds `EventBuffer.append`: push onto the run's list (order preserved). -/
def bufAppend (b : BufState) (r : EventRec) : BufState :=
  { b with events := b.events ++ [r] }

/-- Embeds `EventBuffer.cleanup`: add the run to the done set. -/
def bufMarkDone (b : BufState) : BufState :=
  { b with done := true }

/-- One consumer step of `EventBuffer.stream` (see `BufOp.consume`). -/
def consumeStep (b : BufState) (s : StreamState) : StreamState :=
  if s.termSnapshot.isSome then s
  else if h : s.cursor < b.events.length then
    { s with
      cursor := s.cursor + 1
      yielded := s.yielded ++ [b.events.get ⟨s.cursor, h⟩] }
  else if b.done then
    { s with termSnapshot := some b.events }
  else s

/-- Interleaving semantics: apply one operation. -/
def stepOp (st : BufState × StreamState) (op : BufOp) : BufState × StreamState :=
  match op with
  | .append r => (bufAppend st.1 r, st.2)
  | .markDone => (bufMarkDone st.1, st.2)
  | .consume => (st.1, consumeStep st.1 st.2)

/-- Run a schedule of interleaved operations from the initial state
(empty buffer, fresh consumer at cursor 0). -/
def runOps (ops : List BufOp) : BufState × StreamState :=
  ops.foldl stepOp (⟨[], false⟩, ⟨0, [], none⟩)

/-- The records appended by a schedule, in append order. -/
def appendedRecords (ops : List BufOp) : List EventRec :=
  ops.filterMap fun op =>
    match op with
    | .append r => some r
    | _ => none

/-- Invariant tying a consumer to the buffer: the yielded records are
exactly the first `cursor` buffered records, the cursor never passes
the end, and a terminated stream has yielded the full snapshot taken
at termination. -/
def streamInv (b : BufState) (s : StreamState) : Prop :=
  s.yielded = b.events.take s.cursor ∧
  s.cursor ≤ b.events.length ∧
  (∀ l, s.termSnapshot = some l → s.yielded = l)

theorem streamInv_init : streamInv ⟨[], false⟩ ⟨0, [], none⟩ := by
  refine ⟨rfl, Nat.le_refl _, ?_⟩
  intro l h
  cases h

theorem streamInv_step (b : BufState) (s : StreamState) (op : BufOp)
    (h : streamInv b s) : streamInv (stepOp (b, s) op).1 (stepOp (b, s) op).2 := by
  obtain ⟨hy, hc, ht⟩ := h
  cases op with
  | append r =>
    refine ⟨?_, ?_, ht⟩
    · simp only [stepOp, bufAppend]
      rw [List.take_append_of_le_length hc]
      exact hy
    · simp only [stepOp, bufAppend, List.length_append]
      exact Nat.le_add_right_of_le hc
  | markDone =>
    exact ⟨hy, hc, ht⟩
  | consume =>
    show streamInv b (consumeStep b s)
    unfold consumeStep
    by_cases hterm : s.termSnapshot.isSome = true
    · rw [if_pos hterm]
      exact ⟨hy, hc, ht⟩
    · rw [if_neg hterm]
      have hnone : s.termSnapshot = none := Option.not_isSome_iff_eq_none.mp hterm
      by_cases hlt : s.cursor < b.events.length
      · rw [dif_pos hlt]
        refine ⟨?_, hlt, ?_⟩
        · show s.yielded ++ [b.events.get ⟨s.cursor, hlt⟩] = b.events.take (s.cursor + 1)
          rw [hy]
          simp only [List.get_eq_getElem]
          exact List.take_concat_get' b.events s.cursor hlt
        · intro l hl
          simp only [hnone] at hl
          cases hl
      · rw [dif_neg hlt]
        by_cases hd : b.done = true
        · rw [if_pos hd]
          have hcur : s.cursor = b.events.length := Nat.le_antisymm hc (Nat.le_of_not_lt hlt)
          refine ⟨hy, hc, ?_⟩
          intro l hl
          simp only [Option.some.injEq] at hl
          rw [hy, hcur, List.take_length, hl]
        · rw [if_neg hd]
          exact ⟨hy, hc, ht⟩

theorem streamInv_runAux (ops : List BufOp) (b : BufState) (s : StreamState)
    (h : streamInv b s) :
    streamInv (ops.foldl stepOp (b, s)).1 (ops.foldl stepOp (b, s)).2 := by
  induction ops generalizing b s with
  | nil => exact h
  | cons op rest ih =>
    simp only [List.foldl_cons]
    have h1 := streamInv_step b s op h
    exact ih (stepOp (b, s) op).1 (stepOp (b, s) op).2 h1

theorem events_eq_appendedAux (ops : List BufOp) (b : BufState) (s : StreamState) :
    (ops.foldl stepOp (b, s)).1.events = b.events ++ appendedRecords ops := by
  induction ops generalizing b s with
  | nil => simp [appendedRecords]
  | cons op rest ih =>
    cases op with
    | append r =>
      simp only [List.foldl_cons, stepOp, appendedRecords, List.filterMap_cons]
      rw [ih]
      simp [bufAppend, appendedRecords]
    | markDone =>
      simp only [List.foldl_cons, stepOp, appendedRecords, List.filterMap_cons]
      rw [ih]
      simp [bufMarkDone, appendedRecords]
    | consume =>
      simp only [List.foldl_cons, stepOp, appendedRecords, List.filterMap_cons]
      rw [ih]
      simp [appendedRecords]

/-- C4: Event stream exactness. For every interleaved schedule of
`append` / `mark_done` / consumer steps starting from an empty buffer
and a `stream(run_id, cursor=0)` consumer: the buffered records are
exactly the appended records in append order; the records yielded to
the consumer are exactly a prefix (`take cursor`) of them, so each is
yielded at most once and in append order; and if the stream terminated
because the run was marked done, every record buffered at the moment
of termination had been yielded. -/
theorem eventBuffer_stream_exact (ops : List BufOp) :
    (runOps ops).1.events = appendedRecords ops ∧
    (runOps ops).2.yielded = (runOps ops).1.events.take (runOps ops).2.cursor ∧
    (runOps ops).2.cursor ≤ (runOps ops).1.events.length ∧
    (∀ l, (runOps ops).2.termSnapshot = some l → (runOps ops).2.yielded = l) := by
  have hinv := streamInv_runAux ops ⟨[], false⟩ ⟨0, [], none⟩ streamInv_init
  have hev := events_eq_appendedAux ops ⟨[], false⟩ ⟨0, [], none⟩
  refine ⟨?_, hinv.1, hinv.2.1, hinv.2.2⟩
  simpa using hev

/-- Witness for C4 on a concrete schedule: append one record, let the
consumer yield it, mark the run done, let the consumer terminate; the
stream has yielded exactly the buffered record. -/
theorem eventBuffer_stream_exact_witness :
    (runOps [BufOp.append ⟨"nightshift.started", "w"⟩, BufOp.consume,
      BufOp.markDone, BufOp.consume]).2.yielded =
      [(⟨"nightshift.started", "w"⟩ : EventRec)] :=
  (eventBuffer_stream_exact [BufOp.append ⟨"nightshift.started", "w"⟩, BufOp.consume,
      BufOp.markDone, BufOp.consume]).2.2.2
    [⟨"nightshift.started", "w"⟩] (by rfl)

/-! ### vm/network.py — TAP device and index allocation

IPv4 addresses are modelled structurally as four octets; the source
renders them into dotted-decimal strings with an f-string
(`f"172.16.{vm_index}.1"`), which `renderIp` reproduces. -/

structure IpAddr where
  o1 : Nat
  o2 : Nat
  o3 : Nat
  o4 : Nat
deriving DecidableEq, Repr

/-- Dotted-decimal rendering used in the source's f-strings. -/
def renderIp (ip : IpAddr) : String :=
  toString ip.o1 ++ "." ++ toString ip.o2 ++ "." ++ toString ip.o3 ++ "." ++ toString ip.o4

/-- The record `TapConfig` from network.py (the network lease). -/
structure TapConfig where
  tapName : String
  hostIp : IpAddr
  guestIp : IpAddr
  mask : IpAddr
  vmIndex : Nat
deriving DecidableEq, Repr

/-- The loop body of `_allocate_index`: `idx = 1; while idx in
_allocated_indices: idx += 1`.  Fuel bounds the scan; `allocateIndex`
supplies enough fuel for the loop to reach a free index. -/
def firstFreeIndex (allocated : Finset Nat) (idx : Nat) : Nat → Nat
  | 0 => idx
  | fuel + 1 => if idx ∈ allocated then firstFreeIndex allocated (idx + 1) fuel else idx

/-- Embeds `_allocate_index` (without the mutation): the index the loop picks. -/
def allocateIndex (allocated : Finset Nat) : Nat :=
  firstFreeIndex allocated 1 (allocated.card + 1)

/-- Host-side network state touched by the shell commands that
network.py issues: the allocated index set, TAP devices, their
addresses and up status, the ip_forward toggle, and the NAT/FORWARD
rule sets (keyed by guest IP resp. TAP name, as in the rules'
match expressions). -/
structure NetState where
  allocatedIndices : Finset Nat
  taps : Finset String
  addrAssigned : Finset String
  upTaps : Finset String
  ipForward : Bool
  natRules : Finset IpAddr
  fwdInRules : Finset String
  fwdOutRules : Finset String
deriving DecidableEq

/-- Exit status of each shell command issued by `create_tap`.  `_run`
returns the code but `create_tap` never examines it. -/
structure CmdOutcome where
  tapAddOk : Bool
  addrAddOk : Bool
  linkUpOk : Bool
  sysctlOk : Bool
  natOk : Bool
  fwdInOk : Bool
  fwdOutOk : Bool
deriving DecidableEq, Repr

def cmdsAllOk : CmdOutcome := ⟨true, true, true, true, true, true, true⟩

def emptyNet : NetState := ⟨∅, ∅, ∅, ∅, false, ∅, ∅, ∅⟩

/-- Embeds `create_tap(vm_id)`: allocate the index, derive the lease fields,
issue the seven commands (each command's host-state effect applies
only if the command succeeds; its exit code is captured by `_run` and
ignored), and return the lease unconditionally. -/
def createTap (st : NetState) (vmId : String) (cmds : CmdOutcome) :
    TapConfig × NetState :=
  let vmIndex := allocateIndex st.allocatedIndices
  let st0 := { st with allocatedIndices := insert vmIndex st.allocatedIndices }
  let tapName := "tap-" ++ vmId.take 8
  let hostIp : IpAddr := ⟨172, 16, vmIndex, 1⟩
  let guestIp : IpAddr := ⟨172, 16, vmIndex, 2⟩
  let mask : IpAddr := ⟨255, 255, 255, 252⟩
  let st1 := if cmds.tapAddOk then { st0 with taps := insert tapName st0.taps } else st0
  let st2 := if cmds.addrAddOk then { st1 with addrAssigned := insert tapName st1.addrAssigned } else st1
  let st3 := if cmds.linkUpOk then { st2 with upTaps := insert tapName st2.upTaps } else st2
  let st4 := if cmds.sysctlOk then { st3 with ipForward := true } else st3
  let st5 := if cmds.natOk then { st4 with natRules := insert guestIp st4.natRules } else st4
  let st6 := if cmds.fwdInOk then { st5 with fwdInRules := insert tapName st5.fwdInRules } else st5
  let st7 := if cmds.fwdOutOk then { st6 with fwdOutRules := insert tapName st6.fwdOutRules } else st6
  (⟨tapName, hostIp, guestIp, mask, vmIndex⟩, st7)

/-- Embeds `destroy_tap(config)`: remove the NAT rule, both FORWARD rules and
the TAP device (deleting an absent rule or device fails and the exit
code is ignored, so the state effect is removal-when-present), then
`_release_index` discards the index. -/
def destroyTapState (cfg : TapConfig) (st : NetState) : NetState :=
  let st1 := { st with natRules := st.natRules.erase cfg.guestIp }
  let st2 := { st1 with fwdInRules := st1.fwdInRules.erase cfg.tapName }
  let st3 := { st2 with fwdOutRules := st2.fwdOutRules.erase cfg.tapName }
  let st4 := { st3 with
    taps := st3.taps.erase cfg.tapName
    addrAssigned := st3.addrAssigned.erase cfg.tapName
    upTaps := st3.upTaps.erase cfg.tapName }
  { st4 with allocatedIndices := st4.allocatedIndices.erase cfg.vmIndex }

/-- Trace operations over the allocator: create a lease for a VM, or
destroy the n-th currently live lease (every `destroy_tap` call in the
system passes a lease held by a live VM handle). -/
inductive NetOp where
  | create (vmId : String) (cmds : CmdOutcome)
  | destroy (n : Nat)

structure NetWorld where
  net : NetState
  live : List TapConfig

def netStep (w : NetWorld) (op : NetOp) : NetWorld :=
  match op with
  | .create vmId cmds =>
    let r := createTap w.net vmId cmds
    ⟨r.2, r.1 :: w.live⟩
  | .destroy n =>
    match w.live.get? n with
    | some cfg => ⟨destroyTapState cfg w.net, w.live.eraseIdx n⟩
    | none => w

def runNet (ops : List NetOp) : NetWorld :=
  ops.foldl netStep ⟨emptyNet, []⟩

theorem firstFreeIndex_spec (s : Finset Nat) :
    ∀ (fuel idx : Nat), (s.filter (fun x => idx ≤ x)).card < fuel →
      firstFreeIndex s idx fuel ∉ s ∧ idx ≤ firstFreeIndex s idx fuel ∧
      ∀ j, idx ≤ j → j < firstFreeIndex s idx fuel → j ∈ s := by
  intro fuel
  induction fuel with
  | zero => exact fun idx h => absurd h (Nat.not_lt_zero _)
  | succ n ih =>
    intro idx h
    by_cases hmem : idx ∈ s
    · have hsub : s.filter (fun x => idx + 1 ≤ x) ⊆ (s.filter (fun x => idx ≤ x)).erase idx := by
        intro x hx
        simp only [Finset.mem_filter] at hx
        refine Finset.mem_erase.mpr ⟨?_, Finset.mem_filter.mpr ⟨hx.1, Nat.le_of_succ_le hx.2⟩⟩
        omega
      have hcard : (s.filter (fun x => idx + 1 ≤ x)).card < n := by
        have h1 := Finset.card_le_card hsub
        have h2 : idx ∈ s.filter (fun x => idx ≤ x) :=
          Finset.mem_filter.mpr ⟨hmem, Nat.le_refl idx⟩
        have h3 := Finset.card_erase_of_mem h2
        have h4 : 1 ≤ (s.filter (fun x => idx ≤ x)).card :=
          Finset.card_pos.mpr ⟨idx, h2⟩
        omega
      have hrec := ih (idx + 1) hcard
      have heq : firstFreeIndex s idx (n + 1) = firstFreeIndex s (idx + 1) n := by
        simp [firstFreeIndex, hmem]
      rw [heq]
      refine ⟨hrec.1, Nat.le_trans (Nat.le_succ idx) hrec.2.1, ?_⟩
      intro j hj1 hj2
      rcases Nat.lt_or_ge j (idx + 1) with hj | hj
      · have hje : j = idx := by omega
        exact hje ▸ hmem
      · exact hrec.2.2 j hj hj2
    · have heq : firstFreeIndex s idx (n + 1) = idx := by
        simp [firstFreeIndex, hmem]
      rw [heq]
      exact ⟨hmem, Nat.le_refl idx,
        fun j hj1 hj2 => absurd (Nat.lt_of_le_of_lt hj1 hj2) (Nat.lt_irrefl idx)⟩

/-- Correctness of `_allocate_index`: it picks the smallest positive integer not in the
allocated set. -/
theorem allocateIndex_spec (s : Finset Nat) :
    allocateIndex s ∉ s ∧ 1 ≤ allocateIndex s ∧
      ∀ j, 1 ≤ j → j < allocateIndex s → j ∈ s := by
  have hfuel : (s.filter (fun x => 1 ≤ x)).card < s.card + 1 :=
    Nat.lt_succ_of_le (Finset.card_filter_le s _)
  exact firstFreeIndex_spec s (s.card + 1) 1 hfuel

/-- The lease returned by `create_tap` and the index set it leaves
behind, for every command outcome: the lease fields are computed from
the freshly allocated index, and the index is inserted into (and never
removed from) the allocated set, regardless of command failures. -/
theorem createTap_spec (st : NetState) (vmId : String) (cmds : CmdOutcome) :
    (createTap st vmId cmds).1 =
      ⟨"tap-" ++ vmId.take 8,
        ⟨172, 16, allocateIndex st.allocatedIndices, 1⟩,
        ⟨172, 16, allocateIndex st.allocatedIndices, 2⟩,
        ⟨255, 255, 255, 252⟩,
        allocateIndex st.allocatedIndices⟩ ∧
    (createTap st vmId cmds).2.allocatedIndices =
      insert (allocateIndex st.allocatedIndices) st.allocatedIndices := by
  obtain ⟨a, b, c, d, e, f, g⟩ := cmds
  cases a <;> cases b <;> cases c <;> cases d <;> cases e <;> cases f <;> cases g <;>
    exact ⟨rfl, rfl⟩

/-- Well-formedness of a live lease against the allocator state. -/
def leaseWf (st : NetState) (cfg : TapConfig) : Prop :=
  1 ≤ cfg.vmIndex ∧ cfg.vmIndex ∈ st.allocatedIndices ∧
  cfg.hostIp = ⟨172, 16, cfg.vmIndex, 1⟩ ∧
  cfg.guestIp = ⟨172, 16, cfg.vmIndex, 2⟩ ∧
  cfg.mask = ⟨255, 255, 255, 252⟩

def netInv (w : NetWorld) : Prop :=
  (∀ cfg ∈ w.live, leaseWf w.net cfg) ∧
  List.Pairwise (fun a b => a.vmIndex ≠ b.vmIndex) w.live

theorem pairwise_vmIndex_eraseIdx (l : List TapConfig) (n : Nat) (cfg : TapConfig)
    (hg : l.get? n = some cfg)
    (hpw : List.Pairwise (fun a b => a.vmIndex ≠ b.vmIndex) l) :
    ∀ c ∈ l.eraseIdx n, c.vmIndex ≠ cfg.vmIndex := by
  obtain ⟨hlt, hget⟩ := List.get?_eq_some.mp hg
  have hdecomp : l = l.take n ++ cfg :: l.drop (n + 1) := by
    conv_lhs => rw [← List.take_append_drop n l]
    congr 1
    rw [List.drop_eq_getElem_cons hlt]
    simp only [List.cons.injEq, and_true]
    simpa using hget
  rw [List.eraseIdx_eq_take_drop_succ]
  intro c hc
  rw [hdecomp, List.pairwise_append] at hpw
  obtain ⟨hpw1, hpw2, hcross⟩ := hpw
  rcases List.mem_append.mp hc with h1 | h2
  · exact hcross c h1 cfg (List.mem_cons_self _ _)
  · have hne := (List.pairwise_cons.mp hpw2).1 c h2
    exact fun he => hne he.symm

theorem netInv_step (w : NetWorld) (op : NetOp) (h : netInv w) :
    netInv (netStep w op) := by
  obtain ⟨hwf, hpw⟩ := h
  cases op with
  | create vmId cmds =>
    have hspec := createTap_spec w.net vmId cmds
    have halloc := allocateIndex_spec w.net.allocatedIndices
    simp only [netStep]
    constructor
    · intro cfg hcfg
      rcases List.mem_cons.mp hcfg with hnew | hold
      · subst hnew
        rw [hspec.1]
        refine ⟨halloc.2.1, ?_, rfl, rfl, rfl⟩
        rw [hspec.2]
        exact Finset.mem_insert_self _ _
      · have := hwf cfg hold
        refine ⟨this.1, ?_, this.2.2.1, this.2.2.2.1, this.2.2.2.2⟩
        rw [hspec.2]
        exact Finset.mem_insert_of_mem this.2.1
    · refine List.Pairwise.cons ?_ hpw
      intro b hb
      have hbwf := hwf b hb
      rw [hspec.1]
      intro hcontra
      simp only at hcontra
      exact halloc.1 (hcontra ▸ hbwf.2.1)
  | destroy n =>
    simp only [netStep]
    cases hg : w.live.get? n with
    | none => exact ⟨hwf, hpw⟩
    | some cfg =>
      simp only
      constructor
      · intro c hc
        have hcmem : c ∈ w.live := (List.eraseIdx_sublist w.live n).subset hc
        have hcw := hwf c hcmem
        refine ⟨hcw.1, ?_, hcw.2.2.1, hcw.2.2.2.1, hcw.2.2.2.2⟩
        simp only [destroyTapState]
        exact Finset.mem_erase.mpr
          ⟨pairwise_vmIndex_eraseIdx w.live n cfg hg hpw c hc, hcw.2.1⟩
      · exact List.Pairwise.sublist (List.eraseIdx_sublist w.live n) hpw

theorem netInv_runAux (ops : List NetOp) (w : NetWorld) (h : netInv w) :
    netInv (ops.foldl netStep w) := by
  induction ops generalizing w with
  | nil => exact h
  | cons op rest ih =>
    simp only [List.foldl_cons]
    exact ih (netStep w op) (netInv_step w op h)

theorem netInv_runNet (ops : List NetOp) : netInv (runNet ops) := by
  refine netInv_runAux ops ⟨emptyNet, []⟩ ⟨?_, List.Pairwise.nil⟩
  intro cfg hcfg
  cases hcfg

/-- C6: Index allocation. `_allocate_index` picks the smallest
positive integer not in the live index set; `create_tap` assigns
host_ip 172.16.i.1, guest_ip 172.16.i.2 and mask 255.255.255.252 for
that index i; and over every trace of lease creations and destructions
of live leases, every pair of simultaneously live leases has distinct
indices and distinct guest IPs. -/
theorem createTap_index_allocation (ops : List NetOp) :
    (∀ cfg ∈ (runNet ops).live, leaseWf (runNet ops).net cfg) ∧
    List.Pairwise (fun a b => a.vmIndex ≠ b.vmIndex ∧ a.guestIp ≠ b.guestIp)
      (runNet ops).live ∧
    (∀ s : Finset Nat, allocateIndex s ∉ s ∧ 1 ≤ allocateIndex s ∧
      ∀ j, 1 ≤ j → j < allocateIndex s → j ∈ s) := by
  have hinv := netInv_runNet ops
  refine ⟨hinv.1, ?_, fun s => allocateIndex_spec s⟩
  refine List.Pairwise.imp_of_mem ?_ hinv.2
  intro a b ha hb hne
  have hwa := hinv.1 a ha
  have hwb := hinv.1 b hb
  refine ⟨hne, ?_⟩
  rw [hwa.2.2.2.1, hwb.2.2.2.1]
  intro hcontra
  rw [IpAddr.mk.injEq] at hcontra
  exact hne hcontra.2.2.1

/-- Witness for C6: a single creation on the empty allocator yields the
lease (tap-aaaabbbb, 172.16.1.1, 172.16.1.2, /30, index 1), and on the
set containing 1, 2 and 4 the allocator's minimality gives 2 ∈ the set
because the smallest free index is 3. -/
theorem createTap_index_allocation_witness :
    leaseWf (runNet [NetOp.create "aaaabbbb" cmdsAllOk]).net
      ⟨"tap-aaaabbbb", ⟨172, 16, 1, 1⟩, ⟨172, 16, 1, 2⟩, ⟨255, 255, 255, 252⟩, 1⟩ ∧
    (2 : Nat) ∈ ({1, 2, 4} : Finset Nat) :=
  ⟨(createTap_index_allocation [NetOp.create "aaaabbbb" cmdsAllOk]).1 _ (by decide),
   ((createTap_index_allocation []).2.2 {1, 2, 4}).2.2 2 (by decide) (by decide)⟩

def cmdsTapAddFails : CmdOutcome := ⟨false, true, true, true, true, true, true⟩

/-- C7 counterexample: when the TAP-creation command fails
(`ip tuntap add` exits nonzero, so no TAP device exists), `create_tap`
neither aborts with an error nor releases the index: it still returns
the lease with index 1, and the index stays in the allocated set. -/
theorem createTap_failure_cex :
    (createTap emptyNet "deadbeef" cmdsTapAddFails).1.vmIndex = 1 ∧
    1 ∈ (createTap emptyNet "deadbeef" cmdsTapAddFails).2.allocatedIndices ∧
    "tap-deadbeef" ∉ (createTap emptyNet "deadbeef" cmdsTapAddFails).2.taps := by
  refine ⟨rfl, by decide, by decide⟩

/-- C7 amended: `create_tap` never examines the exit codes of the
commands it issues: for every pattern of command failures it returns
the same lease, computed from the freshly allocated index, and that
index remains allocated; a failed command only leaves its host-state
effect unapplied. -/
theorem createTap_ignores_command_failures (st : NetState) (vmId : String)
    (cmds : CmdOutcome) :
    (createTap st vmId cmds).1 = (createTap st vmId cmdsAllOk).1 ∧
    (createTap st vmId cmds).1.vmIndex = allocateIndex st.allocatedIndices ∧
    (createTap st vmId cmds).2.allocatedIndices =
      insert (allocateIndex st.allocatedIndices) st.allocatedIndices := by
  have h1 := createTap_spec st vmId cmds
  have h2 := createTap_spec st vmId cmdsAllOk
  refine ⟨?_, ?_, h1.2⟩
  · rw [h1.1, h2.1]
  · rw [h1.1]

/-! ### vm/manager.py — FirecrackerVM.start

`start()` runs the provisioning sequence with no try/except and no
cleanup handler; each step's success is an oracle input, and the
record tracks which resources the handle has acquired (`_overlay_dir`
assigned, `_overlay_path` assigned, `_tap` assigned, `_proc` spawned)
at each point. -/

structure StartOracle where
  overlayOk : Bool
  tapOk : Bool
  spawnOk : Bool
  socketAppears : Bool
  bootPutOk : Bool
  drivePutOk : Bool
  netPutOk : Bool
  machinePutOk : Bool
  startActionOk : Bool
  healthOk : Bool
deriving DecidableEq, Repr

/-- Which resources the handle holds: scratch temp directory, overlay
image, TAP lease, firecracker child process. -/
structure Resources where
  scratchDir : Bool
  overlay : Bool
  tapLease : Bool
  process : Bool
deriving DecidableEq, Repr

def noResources : Resources := ⟨false, false, false, false⟩

inductive StartErr where
  | overlayBuild
  | tapCreate
  | spawn
  | socketTimeout
  | apiPut (path : String)
  | instanceStart
  | healthTimeout
deriving DecidableEq, Repr

/-- Embeds `FirecrackerVM.start()`: on success returns the acquired
resources; on failure the exception carries the failing step and the
resources still held at the moment the exception propagates (the
source releases nothing before re-raising — there is no handler). -/
def startVM (o : StartOracle) : Except (StartErr × Resources) Resources :=
  let r1 : Resources := { noResources with scratchDir := true }
  if !o.overlayOk then .error (.overlayBuild, r1) else
  let r2 := { r1 with overlay := true }
  if !o.tapOk then .error (.tapCreate, r2) else
  let r3 := { r2 with tapLease := true }
  if !o.spawnOk then .error (.spawn, r3) else
  let r4 := { r3 with process := true }
  if !o.socketAppears then .error (.socketTimeout, r4) else
  if !o.bootPutOk then .error (.apiPut "/boot-source", r4) else
  if !o.drivePutOk then .error (.apiPut "/drives/rootfs", r4) else
  if !o.netPutOk then .error (.apiPut "/network-interfaces/eth0", r4) else
  if !o.machinePutOk then .error (.apiPut "/machine-config", r4) else
  if !o.startActionOk then .error (.instanceStart, r4) else
  if !o.healthOk then .error (.healthTimeout, r4) else
  .ok r4

/-- The resources constructed before each failing step. -/
def heldAt : StartErr → Resources
  | .overlayBuild => ⟨true, false, false, false⟩
  | .tapCreate => ⟨true, true, false, false⟩
  | .spawn => ⟨true, true, true, false⟩
  | _ => ⟨true, true, true, true⟩

def oSocketTimeout : StartOracle :=
  ⟨true, true, true, false, true, true, true, true, true, true⟩

/-- C3 counterexample: when the API socket never appears, `start()`
propagates the failure while the scratch directory, overlay image, TAP
lease and firecracker process are all still held — nothing was
released. -/
theorem startVM_leak_cex :
    startVM oSocketTimeout = .error (.socketTimeout, ⟨true, true, true, true⟩) ∧
    (⟨true, true, true, true⟩ : Resources) ≠ noResources :=
  ⟨rfl, by decide⟩

/-- C3 amended: if `start()` fails at any step, every resource already
constructed for the VM remains held when the failure propagates —
`start` releases nothing (the scratch directory always exists, and
exactly the resources built before the failing step are live).  In the
pooled cold-start path no caller destroys the handle either. -/
theorem startVM_no_release_on_failure (o : StartOracle) (e : StartErr)
    (r : Resources) (h : startVM o = .error (e, r)) :
    r = heldAt e ∧ r.scratchDir = true := by
  obtain ⟨a, b, c, d, e1, f, g, h1, i, j⟩ := o
  cases a <;> cases b <;> cases c <;> cases d <;> cases e1 <;> cases f <;>
    cases g <;> cases h1 <;> cases i <;> cases j <;>
    first
    | exact Except.noConfusion h
    | (injection h with hp; injection hp with he hr; subst he; subst hr;
       exact ⟨rfl, rfl⟩)

def oHealthTimeout : StartOracle :=
  ⟨true, true, true, true, true, true, true, true, true, false⟩

/-- Witness for C3's amended theorem at a concrete failing start: a
health timeout leaves all four resources held. -/
theorem startVM_no_release_on_failure_witness :
    (⟨true, true, true, true⟩ : Resources) = heldAt .healthTimeout ∧
    (⟨true, true, true, true⟩ : Resources).scratchDir = true :=
  startVM_no_release_on_failure oHealthTimeout .healthTimeout
    ⟨true, true, true, true⟩ rfl

/-! ### vm/manager.py — FirecrackerVM.destroy

`destroy()` is a sequence of independently guarded teardown steps; the
handle's fields (`_proc`, `_tap`, `_overlay_path`, `_socket_path`,
`_overlay_dir`) are never cleared, so a second call re-runs every
guard against the post-teardown host state.  The function is total:
every step is guarded by an existence check, exit codes of the
teardown commands are ignored, and `rmtree` runs with
ignore_errors. -/

structure VmRuntime where
  hasProc : Bool
  procAlive : Bool
  tap : Option TapConfig
  overlayPath : String
  socketPath : String
  overlayDir : String
deriving DecidableEq

structure HostFs where
  overlayFileExists : Bool
  socketExists : Bool
  overlayDirExists : Bool
deriving DecidableEq, Repr

structure OsState where
  net : NetState
  fs : HostFs
deriving DecidableEq

/-- Embeds `destroy_overlay` (rootfs.py): remove the overlay file if it
exists; remove its parent directory if it exists and is empty (the
directory holds only the overlay image and the API socket). -/
def destroyOverlayFs (fs : HostFs) : HostFs :=
  let fs1 := if fs.overlayFileExists then { fs with overlayFileExists := false } else fs
  if fs1.overlayDirExists && !fs1.overlayFileExists && !fs1.socketExists then
    { fs1 with overlayDirExists := false }
  else fs1

/-- Step 1 of `destroy()`: kill the child if `_proc` is set and
`returncode is None`; `wait()` then records the exit code. -/
def killStep (v : VmRuntime) : VmRuntime :=
  if v.hasProc ∧ v.procAlive then { v with procAlive := false } else v

/-- Step 2 of `destroy()`: `destroy_tap(self._tap)` if `_tap` is set. -/
def tapStep (v : VmRuntime) (net : NetState) : NetState :=
  match v.tap with
  | some cfg => destroyTapState cfg net
  | none => net

/-- Steps 3–5 of `destroy()`: `destroy_overlay` if `_overlay_path` is
set; remove the socket file if its path is set and it exists; `rmtree`
the scratch directory if its path is set and it is a directory. -/
def fsSteps (v : VmRuntime) (fs : HostFs) : HostFs :=
  let fs1 := if v.overlayPath ≠ "" then destroyOverlayFs fs else fs
  let fs2 := if v.socketPath ≠ "" ∧ fs1.socketExists then
    { fs1 with socketExists := false } else fs1
  if v.overlayDir ≠ "" ∧ fs2.overlayDirExists then
    { fs2 with overlayDirExists := false } else fs2

/-- Embeds `FirecrackerVM.destroy()`: the five guarded steps in order.  The
process, network and filesystem effects touch disjoint components of
the state. -/
def vmDestroy (v : VmRuntime) (os : OsState) : VmRuntime × OsState :=
  (killStep v, ⟨tapStep v os.net, fsSteps v os.fs⟩)

theorem destroyTapState_idem (cfg : TapConfig) (st : NetState) :
    destroyTapState cfg (destroyTapState cfg st) = destroyTapState cfg st := by
  simp [destroyTapState, Finset.erase_idem]

theorem killStep_fields (v : VmRuntime) :
    (killStep v).tap = v.tap ∧ (killStep v).overlayPath = v.overlayPath ∧
    (killStep v).socketPath = v.socketPath ∧ (killStep v).overlayDir = v.overlayDir ∧
    (killStep v).hasProc = v.hasProc := by
  unfold killStep
  by_cases h : v.hasProc ∧ v.procAlive
  · rw [if_pos h]
    exact ⟨rfl, rfl, rfl, rfl, rfl⟩
  · rw [if_neg h]
    exact ⟨rfl, rfl, rfl, rfl, rfl⟩

theorem killStep_idem (v : VmRuntime) : killStep (killStep v) = killStep v := by
  rcases v with ⟨hp, pa, tap, op, sp, od⟩
  cases hp <;> cases pa <;> simp [killStep]

theorem fsSteps_idem (v : VmRuntime) (fs : HostFs)
    (hcoh : v.socketPath ≠ "" → v.overlayDir ≠ "") :
    fsSteps v (fsSteps v fs) = fsSteps v fs := by
  rcases fs with ⟨fe, se, de⟩
  by_cases h1 : v.overlayPath = "" <;> by_cases h2 : v.socketPath = "" <;>
    by_cases h3 : v.overlayDir = "" <;> cases fe <;> cases se <;> cases de <;>
    first
    | exact absurd h3 (hcoh h2)
    | simp_all [fsSteps, destroyOverlayFs]

/-- C9: Destroy idempotence.  Calling `destroy()` a second time on the
same handle leaves both the handle and the host state exactly as the
first call left them (each step is guarded, deletions are
removal-when-present, and `_release_index` is a discard), and
`destroy_tap(lease)` applied twice equals `destroy_tap` applied once;
both functions are total, so neither call raises.  The hypothesis
records that a handle with an API-socket path also has a scratch
directory path — in the source both are assigned together at the top
of `start()` (`_socket_path` lives inside `_overlay_dir`). -/
theorem destroy_idempotent (v : VmRuntime) (os : OsState)
    (hcoh : v.socketPath ≠ "" → v.overlayDir ≠ "") :
    vmDestroy (vmDestroy v os).1 (vmDestroy v os).2 = vmDestroy v os ∧
    (∀ (cfg : TapConfig) (st : NetState),
      destroyTapState cfg (destroyTapState cfg st) = destroyTapState cfg st) := by
  refine ⟨?_, destroyTapState_idem⟩
  have hk := killStep_fields v
  simp only [vmDestroy]
  refine Prod.ext (killStep_idem v) ?_
  simp only
  congr 1
  · show tapStep (killStep v) (tapStep v os.net) = tapStep v os.net
    rw [tapStep, tapStep, hk.1]
    cases v.tap with
    | none => rfl
    | some cfg => exact destroyTapState_idem cfg os.net
  · show fsSteps (killStep v) (fsSteps v os.fs) = fsSteps v os.fs
    have : fsSteps (killStep v) = fsSteps v := by
      funext fs
      rw [fsSteps, fsSteps, hk.2.1, hk.2.2.1, hk.2.2.2.1]
    rw [this]
    exact fsSteps_idem v os.fs hcoh

def vDemo : VmRuntime :=
  ⟨true, true, some ⟨"tap-aaaabbbb", ⟨172, 16, 1, 1⟩, ⟨172, 16, 1, 2⟩,
    ⟨255, 255, 255, 252⟩, 1⟩, "/tmp/vm/rootfs.ext4", "/tmp/vm/firecracker.sock",
    "/tmp/vm"⟩

def osDemo : OsState :=
  ⟨⟨{1}, {"tap-aaaabbbb"}, {"tap-aaaabbbb"}, {"tap-aaaabbbb"}, true,
    {⟨172, 16, 1, 2⟩}, {"tap-aaaabbbb"}, {"tap-aaaabbbb"}⟩,
    ⟨true, true, true⟩⟩

/-- Witness for C9 on a concrete live handle with a lease, a running
process and all files on disk. -/
theorem destroy_idempotent_witness :
    vmDestroy (vmDestroy vDemo osDemo).1 (vmDestroy vDemo osDemo).2 =
      vmDestroy vDemo osDemo :=
  (destroy_idempotent vDemo osDemo (by decide)).1

/-! ### vm/pool.py — VMPool

`_PoolEntry` with the VM handle identified by its `vm_id`; `None`
while cold-starting.  The idle timer task is tracked as armed /
cancelled. -/

structure PoolEntry where
  vm : Option String
  agentId : String
  pkgDir : String
  stagingDir : String
  workspaceDest : String
  stateful : Bool
  busy : Bool
  idleTask : Bool
deriving DecidableEq, Repr

instance : Inhabited PoolEntry := ⟨⟨none, "", "", "", "", false, false, false⟩⟩

/-- The fields of `agent.config` that `checkout` reads. -/
structure AgentConfig where
  stateful : Bool
  maxConcurrentVms : Nat
  workspace : String
deriving DecidableEq, Repr

/-- Effective max concurrency resolved at the top of `checkout`. -/
def effectiveMax (cfg : AgentConfig) (defaultMaxVms : Nat) : Nat :=
  if cfg.stateful then 1
  else if 0 < cfg.maxConcurrentVms then cfg.maxConcurrentVms
  else defaultMaxVms

/-- The warm-path scan of `checkout`: the first entry that is not busy
and has a live VM is marked busy and its idle timer cancelled.
Returns the updated entry list, the updated selected entry and its
position. -/
def warmSelect : List PoolEntry → Option (List PoolEntry × PoolEntry × Nat)
  | [] => none
  | e :: es =>
    if !e.busy && e.vm.isSome then
      some ({ e with busy := true, idleTask := false } :: es,
        { e with busy := true, idleTask := false }, 0)
    else
      match warmSelect es with
      | some (es2, sel, i) => some (e :: es2, sel, i + 1)
      | none => none

/-- Embeds `tempfile.mkdtemp(prefix=pre)`: a fresh directory whose name is the
prefix followed by a fresh token. -/
def mkdtemp (pre tok : String) : String := pre ++ tok

/-- Workspace resolution in the cold path of `checkout`:
`agent.config.workspace or config.workspace`, falling back to the
fresh temp dir when both are empty. -/
def selectWorkspace (agentWs platformWs fallback : String) : String :=
  if agentWs ≠ "" then agentWs
  else if platformWs ≠ "" then platformWs
  else fallback

/-- The side effects of `VMPool._destroy_entry`, in program order:
cancel the idle timer if armed; if the entry has a VM: extract the
workspace to `workspace_dest` when the entry is stateful, then destroy
the VM; clean up the package dir and the staging dir when set.
(Exceptions in each step are caught and logged; the list records the
attempted actions.) -/
inductive DestroyAction where
  | cancelIdleTask
  | extractWorkspace (dest : String)
  | destroyVM (vmId : String)
  | cleanupPkg (dir : String)
  | removeStaging (dir : String)
deriving DecidableEq, Repr

def destroyEntry (e : PoolEntry) : List DestroyAction :=
  (if e.idleTask then [DestroyAction.cancelIdleTask] else []) ++
  (match e.vm with
   | some v =>
     (if e.stateful then [DestroyAction.extractWorkspace e.workspaceDest] else []) ++
     [DestroyAction.destroyVM v]
   | none => []) ++
  (if e.pkgDir ≠ "" then [DestroyAction.cleanupPkg e.pkgDir] else []) ++
  (if e.stagingDir ≠ "" then [DestroyAction.removeStaging e.stagingDir] else [])

/-- The scan of `invalidate_vm`: find the entry whose VM is the given
handle and detach it from the list. -/
def extractEntry (v : String) : List PoolEntry → Option (PoolEntry × List PoolEntry)
  | [] => none
  | e :: es =>
    if e.vm == some v then some (e, es)
    else
      match extractEntry v es with
      | some (t, rest) => some (t, e :: rest)
      | none => none

/-- Embeds `VMPool.invalidate_vm(agent_id, vm)`: remove the entry holding the
handle (if any), then `_destroy_entry` it.  Returns the remaining
entry list and the destruction actions performed. -/
def invalidateVm (entries : List PoolEntry) (v : String) :
    List PoolEntry × List DestroyAction :=
  match extractEntry v entries with
  | some (t, rest) => (rest, destroyEntry t)
  | none => (entries, [])

inductive CheckoutResult where
  | ok (vmId : String)
  | warmUnhealthy
  | coldFailed
  | wouldWait
deriving DecidableEq, Repr

structure CheckoutOutcome where
  entries : List PoolEntry
  result : CheckoutResult
  coldStart : Bool
  destroyed : List DestroyAction
deriving DecidableEq, Repr

/-- Embeds `VMPool.checkout(agent_id, agent, config)`, one pass of the loop in
a quiescent pool (no competing waiter): warm path takes the first idle
live entry, probes health (outcome `healthy` — modelled from the spec:
`is_healthy()` is true iff `GET /health` returns 200 within 2 s; the
method body is not part of the sources) and on probe failure removes
and destroys the entry and fails with the warm-unhealthy error; cold
path under the cap resolves the workspace, appends a busy placeholder
and provisions (outcome `coldVm`; on failure the placeholder is
removed again); at the cap the caller waits. -/
def checkout (entries : List PoolEntry) (agentId : String) (cfg : AgentConfig)
    (platformWs : String) (defaultMaxVms : Nat) (tmpTok : String)
    (healthy : Bool) (coldVm : Option String) : CheckoutOutcome :=
  match warmSelect entries with
  | some (es, sel, i) =>
    if healthy then ⟨es, .ok (sel.vm.getD ""), false, []⟩
    else ⟨es.eraseIdx i, .warmUnhealthy, false, destroyEntry sel⟩
  | none =>
    if entries.length < effectiveMax cfg defaultMaxVms then
      let ws := selectWorkspace cfg.workspace platformWs
        (mkdtemp "nightshift-empty-ws-" tmpTok)
      let placeholder : PoolEntry :=
        ⟨none, agentId, "", "", ws, cfg.stateful, true, false⟩
      match coldVm with
      | some v => ⟨entries ++ [{ placeholder with vm := some v }], .ok v, true, []⟩
      | none => ⟨entries, .coldFailed, true, []⟩
    else ⟨entries, .wouldWait, false, []⟩

theorem warmSelect_spec (entries : List PoolEntry) (es : List PoolEntry)
    (sel : PoolEntry) (i : Nat) (h : warmSelect entries = some (es, sel, i)) :
    es.length = entries.length ∧
    es.map PoolEntry.vm = entries.map PoolEntry.vm ∧
    ∃ e0 ∈ entries, e0.busy = false ∧ sel.vm = e0.vm ∧ e0.vm.isSome = true := by
  induction entries generalizing es sel i with
  | nil => cases h
  | cons e tail ih =>
    rw [warmSelect] at h
    by_cases hcond : (!e.busy && e.vm.isSome) = true
    · rw [if_pos hcond] at h
      obtain ⟨hb, hs⟩ := Bool.and_eq_true_iff.mp hcond
      injection h with h1
      injection h1 with hes h2
      injection h2 with hsel hi
      subst hes
      subst hsel
      refine ⟨rfl, rfl, e, List.mem_cons_self e tail, ?_, rfl, hs⟩
      simpa using hb
    · rw [if_neg hcond] at h
      cases hrec : warmSelect tail with
      | none => rw [hrec] at h; cases h
      | some r =>
        obtain ⟨es2, sel2, i2⟩ := r
        rw [hrec] at h
        injection h with h1
        injection h1 with hes h2
        injection h2 with hsel hi
        subst hes
        subst hsel
        obtain ⟨hlen, hmap, e0, hmem, hb0, hv0, hs0⟩ := ih es2 sel2 i2 hrec
        exact ⟨by simp [hlen], by simp [hmap], e0, List.mem_cons_of_mem e hmem,
          hb0, hv0, hs0⟩

/-- C1: Warm reuse.  When the pool holds an idle entry with a live VM
handle and the health probe succeeds, `checkout` returns exactly that
warm handle, performs no cold start, and provisions no new VM: the
entry list keeps the same length and the same handles (only `busy` and
the idle timer change on the selected entry). -/
theorem checkout_warm_reuse (entries : List PoolEntry) (agentId : String)
    (cfg : AgentConfig) (platformWs : String) (defaultMaxVms : Nat)
    (tmpTok : String) (coldVm : Option String) (es : List PoolEntry)
    (sel : PoolEntry) (i : Nat) (v : String)
    (hsel : warmSelect entries = some (es, sel, i)) (hv : sel.vm = some v) :
    (checkout entries agentId cfg platformWs defaultMaxVms tmpTok true coldVm).result
      = .ok v ∧
    (checkout entries agentId cfg platformWs defaultMaxVms tmpTok true coldVm).coldStart
      = false ∧
    (checkout entries agentId cfg platformWs defaultMaxVms tmpTok true coldVm).entries.length
      = entries.length ∧
    (checkout entries agentId cfg platformWs defaultMaxVms tmpTok true coldVm).entries.map
        PoolEntry.vm = entries.map PoolEntry.vm ∧
    (∃ e0 ∈ entries, e0.busy = false ∧ e0.vm = some v) := by
  obtain ⟨hlen, hmap, e0, hmem, hb0, hv0, hs0⟩ :=
    warmSelect_spec entries es sel i hsel
  rw [checkout, hsel]
  simp only [if_pos rfl]
  refine ⟨by rw [hv]; rfl, rfl, hlen, hmap, e0, hmem, hb0, by rw [← hv0, hv]⟩

def warmEntryDemo : PoolEntry :=
  ⟨some "vm-1", "agentA", "/tmp/pkg", "/tmp/staging", "/home/ws", false, false, true⟩

/-- Witness for C1: a pool with one idle live entry hands back that
entry's handle with no cold start. -/
theorem checkout_warm_reuse_witness :
    (checkout [warmEntryDemo] "agentA" ⟨false, 2, "/home/ws"⟩ "" 2 "t" true
      none).result = .ok "vm-1" ∧
    (checkout [warmEntryDemo] "agentA" ⟨false, 2, "/home/ws"⟩ "" 2 "t" true
      none).coldStart = false :=
  ⟨(checkout_warm_reuse [warmEntryDemo] "agentA" ⟨false, 2, "/home/ws"⟩ "" 2 "t"
      none ([{ warmEntryDemo with busy := true, idleTask := false }])
      ({ warmEntryDemo with busy := true, idleTask := false }) 0 "vm-1"
      (by rfl) (by rfl)).1,
   (checkout_warm_reuse [warmEntryDemo] "agentA" ⟨false, 2, "/home/ws"⟩ "" 2 "t"
      none ([{ warmEntryDemo with busy := true, idleTask := false }])
      ({ warmEntryDemo with busy := true, idleTask := false }) 0 "vm-1"
      (by rfl) (by rfl)).2.1⟩

/-- C10: when neither the agent's configured workspace nor the
platform config's workspace is set, the cold-start path uses the
freshly created temp directory with prefix `nightshift-empty-ws-` as
the VM workspace — a value that is never equal to any path not of that
shape, in particular never the process's current working directory. -/
theorem checkout_empty_workspace (entries : List PoolEntry) (agentId : String)
    (cfg : AgentConfig) (defaultMaxVms : Nat) (tmpTok : String) (v : String)
    (hwarm : warmSelect entries = none)
    (hcap : entries.length < effectiveMax cfg defaultMaxVms)
    (hws : cfg.workspace = "") :
    ∃ ph : PoolEntry,
      (checkout entries agentId cfg "" defaultMaxVms tmpTok true (some v)).entries
        = entries ++ [ph] ∧
      ph.workspaceDest = mkdtemp "nightshift-empty-ws-" tmpTok ∧
      ph.workspaceDest = "nightshift-empty-ws-" ++ tmpTok ∧
      (∀ cwd : String, (∀ t, cwd ≠ "nightshift-empty-ws-" ++ t) →
        ph.workspaceDest ≠ cwd) := by
  rw [checkout, hwarm]
  simp only [if_pos hcap]
  refine ⟨_, rfl, ?_, ?_, ?_⟩
  · show selectWorkspace cfg.workspace "" (mkdtemp "nightshift-empty-ws-" tmpTok)
      = mkdtemp "nightshift-empty-ws-" tmpTok
    rw [hws, selectWorkspace]
    simp
  · show selectWorkspace cfg.workspace "" (mkdtemp "nightshift-empty-ws-" tmpTok)
      = "nightshift-empty-ws-" ++ tmpTok
    rw [hws, selectWorkspace]
    simp [mkdtemp]
  · intro cwd hcwd hcontra
    apply hcwd tmpTok
    rw [← hcontra]
    show selectWorkspace cfg.workspace "" (mkdtemp "nightshift-empty-ws-" tmpTok)
      = "nightshift-empty-ws-" ++ tmpTok
    rw [hws, selectWorkspace]
    simp [mkdtemp]

/-- Witness for C10 on an empty pool with both workspace settings
empty: the placeholder's workspace is the fresh temp dir. -/
theorem checkout_empty_workspace_witness :
    (checkout [] "agentA" ⟨false, 1, ""⟩ "" 1 "tok123" true
      (some "vm-9")).entries.map PoolEntry.workspaceDest =
      ["nightshift-empty-ws-tok123"] := by
  obtain ⟨ph, hentries, hmk, hshape, hnc⟩ :=
    checkout_empty_workspace [] "agentA" ⟨false, 1, ""⟩ 1 "tok123" "vm-9"
      (by rfl) (by decide) (by rfl)
  rw [hentries]
  simp [hshape]

def statefulEntry : PoolEntry :=
  ⟨some "vm-1", "agentB", "/tmp/pkg", "/tmp/staging", "/home/user/ws",
    true, true, false⟩

/-- C5 counterexample: `invalidate_vm` on a stateful entry performs a
workspace extraction (via `_destroy_entry`), contradicting the claim
that the entry is destroyed without workspace extraction even when
stateful. -/
theorem invalidateVm_extracts_stateful_cex :
    DestroyAction.extractWorkspace "/home/user/ws" ∈
      (invalidateVm [statefulEntry] "vm-1").2 := by decide

theorem extractEntry_vm (v : String) (entries : List PoolEntry)
    (t : PoolEntry) (rest : List PoolEntry)
    (h : extractEntry v entries = some (t, rest)) : t.vm = some v := by
  induction entries generalizing rest with
  | nil => cases h
  | cons e tail ih =>
    rw [extractEntry] at h
    by_cases hcond : (e.vm == some v) = true
    · rw [if_pos hcond] at h
      injection h with h1
      injection h1 with ht hrest
      subst ht
      exact beq_iff_eq.mp hcond
    · rw [if_neg hcond] at h
      cases hrec : extractEntry v tail with
      | none => rw [hrec] at h; cases h
      | some r =>
        obtain ⟨t2, rest2⟩ := r
        rw [hrec] at h
        injection h with h1
        injection h1 with ht hrest
        subst ht
        exact ih rest2 hrec

/-- C5 amended: `invalidate_vm` removes the entry holding the handle
and destroys it; the destruction extracts the guest workspace to the
entry's workspace destination exactly when the entry is stateful —
only stateless entries are destroyed without workspace extraction. -/
theorem invalidateVm_amended (entries : List PoolEntry) (v : String)
    (t : PoolEntry) (rest : List PoolEntry)
    (h : extractEntry v entries = some (t, rest)) :
    (invalidateVm entries v).1 = rest ∧
    (invalidateVm entries v).2 = destroyEntry t ∧
    (DestroyAction.extractWorkspace t.workspaceDest ∈ (invalidateVm entries v).2
      ↔ t.stateful = true) ∧
    (∀ d, DestroyAction.extractWorkspace d ∈ (invalidateVm entries v).2 →
      d = t.workspaceDest) := by
  have hvm : t.vm = some v := extractEntry_vm v entries t rest h
  rw [invalidateVm, h]
  refine ⟨rfl, rfl, ?_, ?_⟩
  · simp only [destroyEntry, hvm]
    by_cases hs : t.stateful = true <;>
      by_cases hi : t.idleTask = true <;>
      by_cases hp : t.pkgDir = "" <;>
      by_cases hg : t.stagingDir = "" <;>
      simp_all
  · intro d hd
    simp only [destroyEntry, hvm] at hd
    by_cases hs : t.stateful = true <;>
      by_cases hi : t.idleTask = true <;>
      by_cases hp : t.pkgDir = "" <;>
      by_cases hg : t.stagingDir = "" <;>
      simp_all

/-- Witness for C5's amended theorem: invalidating the stateful demo
entry performs exactly its destroy sequence, extraction included. -/
theorem invalidateVm_amended_witness :
    (invalidateVm [statefulEntry] "vm-1").2 = destroyEntry statefulEntry ∧
    (DestroyAction.extractWorkspace "/home/user/ws" ∈
        (invalidateVm [statefulEntry] "vm-1").2 ↔ true = true) :=
  ⟨(invalidateVm_amended [statefulEntry] "vm-1" statefulEntry [] (by rfl)).2.1,
   (invalidateVm_amended [statefulEntry] "vm-1" statefulEntry [] (by rfl)).2.2.1⟩

/-! ### vm/manager.py — wait_for_completion, and task.py — run_task /
run_task_pooled

SSE frames from the guest are oracle inputs: a frame is either skipped
(empty data or JSON decode failure) or carries the SSE event name, an
optional `type` field of its JSON payload, and the rest of the payload
(opaque).  Events published into the buffer are tagged with their
provenance: forwarded from the guest, or emitted by the
orchestrator. -/

inductive SSEFrame where
  | skipFrame
  | evt (sseName : String) (ptype : Option String) (payload : String)
deriving DecidableEq, Repr

/-- Embeds `FirecrackerVM.wait_for_completion`: forward each well-formed
frame (event type = payload `type` if present, else the SSE event
name) until the first terminal event, returning the forwarded records
and whether a terminal event was forwarded.  If the stream ends
without a terminal event the method returns normally as well. -/
def waitForCompletion : List SSEFrame → List EventRec × Bool
  | [] => ([], false)
  | f :: fs =>
    match f with
    | .skipFrame => waitForCompletion fs
    | .evt sseName ptype payload =>
      let ty := ptype.getD sseName
      if ty ∈ TERMINAL_EVENTS then ([⟨ty, payload⟩], true)
      else
        let r := waitForCompletion fs
        (⟨ty, payload⟩ :: r.1, r.2)

inductive Src where
  | guest
  | orchestrator
deriving DecidableEq, Repr

/-- One event appended to the run's buffer, with its provenance. -/
structure TraceEv where
  src : Src
  type : String
  payload : String
deriving DecidableEq, Repr

def guestTrace (l : List EventRec) : List TraceEv :=
  l.map fun r => ⟨Src.guest, r.type, r.payload⟩

/-- Embeds `run_task` (legacy one-shot path): on start failure publish an
error event; otherwise forward the guest stream, and after
`wait_for_completion` returns publish `CompletedEvent()`
unconditionally (line `await log.publish(run_id, CompletedEvent())`);
a stream error after the forwarded frames lands in the except branch,
which publishes an error event. -/
def runTaskLegacy (startErr : Option String) (frames : List SSEFrame)
    (streamErr : Option String) : List TraceEv :=
  match startErr with
  | some m => [⟨Src.orchestrator, "nightshift.error", m⟩]
  | none =>
    let r := waitForCompletion frames
    if r.2 then
      guestTrace r.1 ++ [⟨Src.orchestrator, "nightshift.completed", ""⟩]
    else
      match streamErr with
      | some m => guestTrace r.1 ++ [⟨Src.orchestrator, "nightshift.error", m⟩]
      | none => guestTrace r.1 ++ [⟨Src.orchestrator, "nightshift.completed", ""⟩]

/-- Outcome of one iteration of the retry loop in `run_task_pooled`:
either `pool.checkout` itself raised (warm-unhealthy probe failure or
cold-start failure — note the call sits OUTSIDE the inner
try/except), or checkout returned a VM and the attempt ran with the
given submit outcome, guest frames, and post-stream connection
error. -/
inductive AttemptOut where
  | checkoutFail (msg : String)
  | run (submitErr : Option String) (frames : List SSEFrame)
      (streamErr : Option String)

inductive AttemptResult where
  | success (published : List TraceEv)
  | failed (published : List TraceEv) (msg : String)

/-- The inner try body of one attempt: submit the run, forward the
guest stream; an exception after the forwarded frames fails the
attempt.  A clean end of stream without a terminal event returns
normally (success path). -/
def attemptInner (submitErr : Option String) (frames : List SSEFrame)
    (streamErr : Option String) : AttemptResult :=
  match submitErr with
  | some m => .failed [] m
  | none =>
    let r := waitForCompletion frames
    if r.2 then .success (guestTrace r.1)
    else
      match streamErr with
      | some m => .failed (guestTrace r.1) m
      | none => .success (guestTrace r.1)

structure PooledResult where
  trace : List TraceEv
  checkoutCalls : Nat
  invalidateCalls : Nat
  succeeded : Bool
deriving DecidableEq, Repr

/-- Embeds `run_task_pooled`: for attempt in range(2), checkout (exceptions
here escape the retry loop to the outer except, which publishes a
synthetic error event), then the inner try; an inner failure
invalidates the VM and retries once, a second inner failure re-raises
into the outer except. -/
def runTaskPooled (a0 a1 : AttemptOut) : PooledResult :=
  match a0 with
  | .checkoutFail m => ⟨[⟨Src.orchestrator, "nightshift.error", m⟩], 1, 0, false⟩
  | .run se fr ste =>
    match attemptInner se fr ste with
    | .success evs => ⟨evs, 1, 0, true⟩
    | .failed evs _ =>
      match a1 with
      | .checkoutFail m =>
        ⟨evs ++ [⟨Src.orchestrator, "nightshift.error", m⟩], 2, 1, false⟩
      | .run se1 fr1 ste1 =>
        match attemptInner se1 fr1 ste1 with
        | .success evs1 => ⟨evs ++ evs1, 2, 1, true⟩
        | .failed evs1 m1 =>
          ⟨evs ++ evs1 ++ [⟨Src.orchestrator, "nightshift.error", m1⟩], 2, 2, false⟩

/-- C2: when the first `pool.checkout` fails with the warm-unhealthy
error, `run_task_pooled` performs NO second attempt — the exception is
raised outside the inner try/except, so it escapes the retry loop
directly into the outer handler: exactly one checkout happens, a
synthetic `nightshift.error` event is appended, and the run fails,
even though a second attempt (modelled here as an immediately
successful run) was available.  This contradicts the claim and the
function's own docstring ("retry on warm failure"). -/
theorem runTaskPooled_warm_unhealthy_not_retried :
    runTaskPooled (.checkoutFail "Warm VM unhealthy for agent agentA")
        (.run none [SSEFrame.evt "message" (some "nightshift.completed") "p"] none) =
      ⟨[⟨Src.orchestrator, "nightshift.error", "Warm VM unhealthy for agent agentA"⟩],
        1, 0, false⟩ := rfl

/-- C8 counterexample: in the legacy `run_task` path, after
`wait_for_completion` forwarded the guest's terminal
`nightshift.completed`, the orchestrator still appends its own
`CompletedEvent` — an orchestrator-emitted terminal event in the same
run's buffer. -/
theorem runTask_duplicate_terminal_cex :
    (∃ ev ∈ runTaskLegacy none
        [SSEFrame.evt "message" (some "nightshift.completed") "p"] none,
      ev.src = Src.guest ∧ ev.type ∈ TERMINAL_EVENTS) ∧
    (∃ ev ∈ runTaskLegacy none
        [SSEFrame.evt "message" (some "nightshift.completed") "p"] none,
      ev.src = Src.orchestrator ∧ ev.type ∈ TERMINAL_EVENTS) := by
  constructor
  · exact ⟨⟨Src.guest, "nightshift.completed", "p"⟩, by decide, by decide⟩
  · exact ⟨⟨Src.orchestrator, "nightshift.completed", ""⟩, by decide, by decide⟩

theorem guestTrace_src (l : List EventRec) (ev : TraceEv)
    (h : ev ∈ guestTrace l) : ev.src = Src.guest := by
  obtain ⟨r, hr, hev⟩ := List.mem_map.mp h
  rw [← hev]

theorem attemptInner_success_guest (se : Option String) (fr : List SSEFrame)
    (ste : Option String) (evs : List TraceEv)
    (h : attemptInner se fr ste = .success evs) :
    ∀ e ∈ evs, e.src = Src.guest := by
  cases se with
  | some m =>
    simp only [attemptInner] at h
    cases h
  | none =>
    simp only [attemptInner] at h
    by_cases hr : (waitForCompletion fr).2 = true
    · rw [if_pos hr] at h
      injection h with h1
      exact fun e he => guestTrace_src _ e (h1 ▸ he)
    · rw [if_neg hr] at h
      cases ste with
      | some m => cases h
      | none =>
        injection h with h1
        exact fun e he => guestTrace_src _ e (h1 ▸ he)

theorem attemptInner_failed_guest (se : Option String) (fr : List SSEFrame)
    (ste : Option String) (evs : List TraceEv) (m : String)
    (h : attemptInner se fr ste = .failed evs m) :
    ∀ e ∈ evs, e.src = Src.guest := by
  cases se with
  | some m2 =>
    simp only [attemptInner] at h
    injection h with h1 h2
    subst h1
    exact fun e he => absurd he (List.not_mem_nil e)
  | none =>
    simp only [attemptInner] at h
    by_cases hr : (waitForCompletion fr).2 = true
    · rw [if_pos hr] at h
      cases h
    · rw [if_neg hr] at h
      cases ste with
      | some m3 =>
        injection h with h1 h2
        exact fun e he => guestTrace_src _ e (h1 ▸ he)
      | none => cases h

/-- C8 amended: in the pooled path, whenever the run completes
successfully — in particular whenever a guest terminal event was
forwarded by `wait_for_completion` — every event in the run's buffer
came from the guest: the orchestrator appends no terminal event of its
own.  In the legacy `run_task` path, by contrast, the orchestrator
always appends its own `nightshift.completed` after the guest stream
ends, even when a guest terminal event was already forwarded. -/
theorem terminal_events_authoritative (a0 a1 : AttemptOut)
    (frames : List SSEFrame) (streamErr : Option String)
    (hsucc : (runTaskPooled a0 a1).succeeded = true)
    (hterm : (waitForCompletion frames).2 = true) :
    (∀ ev ∈ (runTaskPooled a0 a1).trace, ev.src = Src.guest) ∧
    runTaskLegacy none frames streamErr =
      guestTrace (waitForCompletion frames).1 ++
        [⟨Src.orchestrator, "nightshift.completed", ""⟩] := by
  constructor
  · intro ev hev
    cases a0 with
    | checkoutFail m => simp [runTaskPooled] at hsucc
    | run se fr ste =>
      cases hA : attemptInner se fr ste with
      | success evs =>
        simp only [runTaskPooled, hA] at hev
        exact attemptInner_success_guest se fr ste evs hA ev hev
      | failed evs m0 =>
        cases a1 with
        | checkoutFail m => simp [runTaskPooled, hA] at hsucc
        | run se1 fr1 ste1 =>
          cases hB : attemptInner se1 fr1 ste1 with
          | success evs1 =>
            simp only [runTaskPooled, hA, hB, List.mem_append] at hev
            rcases hev with h | h
            · exact attemptInner_failed_guest se fr ste evs m0 hA ev h
            · exact attemptInner_success_guest se1 fr1 ste1 evs1 hB ev h
          | failed evs1 m1 =>
            simp [runTaskPooled, hA, hB] at hsucc
  · simp only [runTaskLegacy]
    rw [if_pos hterm]

/-- Witness for C8's amended theorem: a run whose single attempt
forwards the guest's `nightshift.completed`; the pooled trace is
guest-only and the legacy trace appends the orchestrator's own
completed event. -/
theorem terminal_events_authoritative_witness :
    (∀ ev ∈ (runTaskPooled
        (.run none [SSEFrame.evt "message" (some "nightshift.completed") "p"] none)
        (.run none [] none)).trace, ev.src = Src.guest) ∧
    runTaskLegacy none [SSEFrame.evt "message" (some "nightshift.completed") "p"]
        none =
      guestTrace (waitForCompletion
          [SSEFrame.evt "message" (some "nightshift.completed") "p"]).1 ++
        [⟨Src.orchestrator, "nightshift.completed", ""⟩] :=
  terminal_events_authoritative
    (.run none [SSEFrame.evt "message" (some "nightshift.completed") "p"] none)
    (.run none [] none)
    [SSEFrame.evt "message" (some "nightshift.completed") "p"] none
    (by rfl) (by rfl)

end Nightshift
